import Mathlib

/-!
Verification development for the zomatoScraper repository.

We give a shallow embedding of `zomato_scraper.py` (the `ZomatoScraper`
class: URL filtering, JSON-file persistence, and the polling/monitor
loop) and of the call structure of `ph_scraper.py`, and prove the
testable properties of the specification against it.

Modelling notes on the regex in `filter_restaurant_urls`:

  re.compile(rf'^(https://www\.zomato\.com/{self.city}/[^/]+)(/order.*)$',
             re.IGNORECASE)
  used with `pattern.search(url)`.

Since the pattern is anchored with `^` (and no MULTILINE flag), `search`
can only match at position 0.  `IGNORECASE` makes letters match either
case; non-letter literals such as ':', '.', '/' only match themselves
(we model ASCII case folding via `Char.toLower`, matching Python's
behaviour on ASCII input).  `[^/]+` greedily takes the maximal nonempty
run of non-'/' characters (it may include newlines).  `.` does not match
a newline, and `$` matches at the end of the string or just before a
single trailing newline, so the text matched by `.*$` is any tail whose
characters other than the last are not newlines.  The captured group 1
is the prefix of the original URL (original casing preserved) up to the
end of the slug.  The city string is interpolated into the pattern
verbatim; we model it as a literal, which is faithful for any city name
without regex metacharacters (the constructor lowercases it).
-/

/-- Case-insensitive character comparison, as performed by `re.IGNORECASE`
on ASCII text: both characters are lowered and compared. -/
def caseEq (a b : Char) : Bool := a.toLower == b.toLower

/-- Case-insensitive equality of two character lists (same length,
pointwise `caseEq`). -/
def ciEqL : List Char → List Char → Bool
  | [], [] => true
  | a :: xs, b :: ys => caseEq a b && ciEqL xs ys
  | _, _ => false

/-- Consume a literal pattern (first argument) case-insensitively from the
front of the input (second argument), returning the remainder on success. -/
def eatCI : List Char → List Char → Option (List Char)
  | [], r => some r
  | _ :: _, [] => none
  | p :: ps, c :: cs => if caseEq p c then eatCI ps cs else none

/-- The fixed domain-and-scheme literal hard-coded into the filter regex. -/
def domainChars : List Char := "https://www.zomato.com/".toList

/-- The literal `order` that must follow the slash after the slug. -/
def orderChars : List Char := "order".toList

/-- Tail admitted by `.*$` in Python (no MULTILINE, no DOTALL): every
character except possibly the last one is not a newline. -/
def tailOk (l : List Char) : Bool := l.dropLast.all (fun c => c != '\n')

/-- Consume a single literal '/' from the front of the input.  Under
IGNORECASE only '/' itself matches the literal '/'. -/
def slashThen (l : List Char) : Option (List Char) :=
  match l with
  | c :: r => if c = '/' then some r else none
  | [] => none

/-- The anchored regex match of `filter_restaurant_urls` on one URL:
`^(https://www\.zomato\.com/<city>/[^/]+)(/order.*)$` with IGNORECASE,
returning group 1 (the canonical restaurant URL, original casing) on
success.  The slug is the maximal nonempty run of non-'/' characters
(greedy `[^/]+`); the remainder must be '/' followed case-insensitively
by `order` and a tail admitted by `.*$`. -/
def matchRestaurant (city url : List Char) : Option (List Char) :=
  match eatCI domainChars url with
  | none => none
  | some r1 =>
    match eatCI city r1 with
    | none => none
    | some r2 =>
      match slashThen r2 with
      | none => none
      | some r3 =>
        if r3.takeWhile (fun x => x != '/') = [] then none
        else
          match slashThen (r3.dropWhile (fun x => x != '/')) with
          | none => none
          | some r5 =>
            match eatCI orderChars r5 with
            | none => none
            | some r6 =>
              if tailOk r6 then
                some (url.take (domainChars.length + city.length + 1 +
                  (r3.takeWhile (fun x => x != '/')).length))
              else none

/-- Lowercase a string as Python's `str.lower()` does on ASCII text
(character-wise `Char.toLower`). -/
def lowerStr (s : String) : String := String.mk (s.toList.map Char.toLower)

/-- Drop trailing '/' characters, as `base_url.rstrip('/')` does. -/
def rstripSlashL (l : List Char) : List Char :=
  (l.reverse.dropWhile (fun c => c == '/')).reverse

/-- State of a `ZomatoScraper` instance (the fields set by `__init__` that
the pure logic reads; driver and logger are external collaborators). -/
structure ZomatoScraper where
  base_url : String
  city : String
  output_file : String
  next_id : Nat
deriving DecidableEq, Repr

/-- Constructor `ZomatoScraper.__init__`: strips trailing slashes from
`base_url`, lowercases `city`, stores the output file name and sets
`next_id = 1`. -/
def ZomatoScraper.init (base_url city output_file : String) : ZomatoScraper :=
  { base_url := String.mk (rstripSlashL base_url.toList)
    city := lowerStr city
    output_file := output_file
    next_id := 1 }

/-- Insert into a set-as-list, keeping first-insertion order (a
deterministic refinement of Python's unordered `set.add`). -/
def setInsert (l : List String) (x : String) : List String :=
  if x ∈ l then l else l ++ [x]

/-- Method `filter_restaurant_urls`: runs the regex on every input URL and
collects the distinct group-1 captures.  Only `self.city` is read; the
domain is hard-coded in the pattern. -/
def ZomatoScraper.filter_restaurant_urls (s : ZomatoScraper) (urls : List String) :
    List String :=
  urls.foldl (fun acc u =>
    match matchRestaurant s.city.toList u.toList with
    | some c => setInsert acc (String.mk c)
    | none => acc) []

/-- A captured record `{"id": ..., "url": ...}` as persisted in the JSON
array. -/
structure CapturedURL where
  id : Nat
  url : String
deriving DecidableEq, Repr

/-- State of the on-disk output file: absent, a valid JSON array of
records, or unparsable content. -/
inductive StoreFile where
  | absent
  | valid (items : List CapturedURL)
  | corrupt
deriving DecidableEq, Repr

/-- Loading step of `append_to_json_file`: a present, valid file yields
its records; an absent file yields `[]`; a corrupt file raises inside
`json.load`, the exception is caught and logged, and `data = []` is used
instead (nothing propagates to the caller). -/
def loadStore : StoreFile → List CapturedURL
  | .valid items => items
  | .absent => []
  | .corrupt => []

/-- Method `append_to_json_file`: read-modify-write.  Loads the current
array (`loadStore`), extends it with `new_items`, and rewrites the whole
file.  A failed `json.dump` is caught and logged, never raised; we model
a failed write as leaving the file unchanged (the local `data` list is
discarded either way). -/
def append_to_json_file (file : StoreFile) (writeOk : Bool)
    (new_items : List CapturedURL) : StoreFile :=
  if writeOk then .valid (loadStore file ++ new_items) else file

/-- Iterated successful appends, one call per batch. -/
def appendRun (file : StoreFile) (batches : List (List CapturedURL)) : StoreFile :=
  batches.foldl (fun f b => append_to_json_file f true b) file

/-- Id assignment of the monitor loop body: each new URL receives the
current `next_id`, which is then incremented. -/
def assignIds (n : Nat) : List String → List CapturedURL
  | [] => []
  | u :: us => ⟨n, u⟩ :: assignIds (n + 1) us

/-- In-run state of `monitor_for_new_urls`: the id counter
(`self.next_id`), the in-memory seen-set `captured_urls` (kept in
first-capture order, a deterministic refinement of Python's unordered
set), the output file, and the history of all records created so far
(for stating properties; the code prints each one as it is created). -/
structure MonitorState where
  next_id : Nat
  captured : List String
  file : StoreFile
  records : List CapturedURL
deriving DecidableEq, Repr

/-- One tick of the polling loop body: filter the page's links, diff
against the seen-set, assign ids to the new URLs, append them to the
file (the write may fail; the exception is swallowed inside
`append_to_json_file`), and only then merge the new URLs into the
seen-set.  A tick's input is the list of links read from the page plus
whether the disk write would succeed. -/
def monitorTick (s : ZomatoScraper) (st : MonitorState)
    (input : List String × Bool) : MonitorState :=
  let filtered := s.filter_restaurant_urls input.1
  let new_urls := filtered.filter (fun u => decide (u ∉ st.captured))
  if new_urls = [] then st
  else
    let new_items := assignIds st.next_id new_urls
    { next_id := st.next_id + new_items.length
      captured := st.captured ++ new_urls
      file := append_to_json_file st.file input.2 new_items
      records := st.records ++ new_items }

/-- A run of `monitor_for_new_urls` over a finite schedule of ticks,
starting from the scraper's `next_id` (set to 1 by the constructor), an
empty seen-set (`captured_urls = set()` at the top of the method) and a
given initial file state.  Neither the seen-set nor the id counter is
seeded from the file. -/
def monitorRun (s : ZomatoScraper) (file0 : StoreFile)
    (ticks : List (List String × Bool)) : MonitorState :=
  ticks.foldl (monitorTick s) ⟨s.next_id, [], file0, []⟩

/-- Declarative characterization of a successful match: the URL splits as
a case-variant of `https://www.zomato.com/`, a case-variant of the city,
a slash, a nonempty slash-free slug, a slash, a case-variant of `order`,
and a tail whose characters before the last are not newlines; the
canonical capture is the original text up to the end of the slug. -/
def SpecAdmitsL (city url canon : List Char) : Prop :=
  ∃ p ct slug w tl,
    url = p ++ ct ++ '/' :: (slug ++ '/' :: (w ++ tl)) ∧
    ciEqL p domainChars = true ∧
    ciEqL ct city = true ∧
    slug ≠ [] ∧ (∀ a ∈ slug, a ≠ '/') ∧
    ciEqL w orderChars = true ∧
    tailOk tl = true ∧
    canon = p ++ ct ++ '/' :: slug

/-- The method names defined on the `ZomatoScraper` class in
`zomato_scraper.py`. -/
def zomatoScraperMethods : List String :=
  ["__init__", "init_driver", "load_page", "get_all_links",
   "filter_restaurant_urls", "append_to_json_file", "monitor_for_new_urls"]

/-- Python attribute lookup on a `ZomatoScraper` instance: resolves a
method name against the class, or fails (raising `AttributeError`). -/
def lookupMethod (m : String) : Option String :=
  if zomatoScraperMethods.contains m then some m else none

/-- The URL list hard-coded in `ph_scraper.py`. -/
def ph_url_list : List String :=
  ["https://www.zomato.com/bangalore/1947-jp-nagar-bangalore",
   "https://www.zomato.com/bangalore/1-bhk-bar-house-kitchen-1-koramangala-6th-block-bangalore"]

/-- The call `scraper.extract_phone_number()` made by `ph_scraper.py` in
its per-URL loop: attribute resolution on the scraper object either lets
the call proceed (`ok`) or raises `AttributeError`. -/
def extract_phone_number_call : Except String Unit :=
  match lookupMethod "extract_phone_number" with
  | some _ => Except.ok ()
  | none => Except.error "AttributeError: extract_phone_number"

/-- Admission predicate asserted by claim C1 (the URL family of the
specification): the suffix group is optional, and when present it is a
slash followed by anything `.*$` accepts; the domain is the fixed
`www.zomato.com`. -/
def SpecClaimedAdmits (city url canon : List Char) : Prop :=
  ∃ p ct slug sfx,
    url = p ++ ct ++ '/' :: (slug ++ sfx) ∧
    ciEqL p domainChars = true ∧
    ciEqL ct city = true ∧
    slug ≠ [] ∧ (∀ a ∈ slug, a ≠ '/') ∧
    (sfx = [] ∨ ∃ t, sfx = '/' :: t ∧ tailOk t = true) ∧
    canon = p ++ ct ++ '/' :: slug

example :
    (ZomatoScraper.init "https://www.zomato.com" "bangalore" "captured_urls.json").filter_restaurant_urls
      ["https://www.zomato.com/bangalore/abc/order123",
       "https://www.zomato.com/bangalore/abc/menu",
       "https://www.zomato.com/bangalore/xyz/order456"] =
    ["https://www.zomato.com/bangalore/abc", "https://www.zomato.com/bangalore/xyz"] := by
  decide

example :
    (ZomatoScraper.init "https://www.zomato.com" "bangalore" "captured_urls.json").filter_restaurant_urls
      ["https://www.zomato.com/bangalore/abc"] = [] := by
  decide

example :
    (ZomatoScraper.init "https://www.zomato.com" "bangalore" "captured_urls.json").filter_restaurant_urls
      ["HTTPS://WWW.Zomato.com/Bangalore/Abc/ORDER?x=1"] =
    ["HTTPS://WWW.Zomato.com/Bangalore/Abc"] := by
  decide

example :
    monitorRun (ZomatoScraper.init "https://www.zomato.com" "bangalore" "o.json")
      StoreFile.absent
      [(["https://www.zomato.com/bangalore/a/order", "https://www.zomato.com/bangalore/a/order2"], true),
       (["https://www.zomato.com/bangalore/a/order", "https://www.zomato.com/bangalore/b/order"], true)] =
    ⟨3, ["https://www.zomato.com/bangalore/a", "https://www.zomato.com/bangalore/b"],
     StoreFile.valid [⟨1, "https://www.zomato.com/bangalore/a"⟩, ⟨2, "https://www.zomato.com/bangalore/b"⟩],
     [⟨1, "https://www.zomato.com/bangalore/a"⟩, ⟨2, "https://www.zomato.com/bangalore/b"⟩]⟩ := by
  decide

theorem caseEq_comm (a b : Char) : caseEq a b = caseEq b a := by
  unfold caseEq
  by_cases h : a.toLower = b.toLower
  · rw [h]
  · rw [beq_false_of_ne h, beq_false_of_ne (Ne.symm h)]

theorem ciEqL_length {a b : List Char} (h : ciEqL a b = true) : a.length = b.length := by
  induction a generalizing b with
  | nil =>
    cases b with
    | nil => rfl
    | cons y ys => simp [ciEqL] at h
  | cons x xs ih =>
    cases b with
    | nil => simp [ciEqL] at h
    | cons y ys =>
      simp only [ciEqL, Bool.and_eq_true] at h
      simp [ih h.2]

theorem eatCI_eq_some_iff {p l r : List Char} :
    eatCI p l = some r ↔ ∃ q, l = q ++ r ∧ ciEqL q p = true := by
  induction p generalizing l with
  | nil =>
    simp only [eatCI, Option.some.injEq]
    constructor
    · intro h
      exact ⟨[], by simp [h.symm], rfl⟩
    · rintro ⟨q, hl, hq⟩
      cases q with
      | nil => simpa using hl
      | cons a qs => simp [ciEqL] at hq
  | cons ph pt ih =>
    cases l with
    | nil =>
      simp only [eatCI]
      constructor
      · intro h; cases h
      · rintro ⟨q, hl, hq⟩
        cases q with
        | nil => simp [ciEqL] at hq
        | cons a qs => simp at hl
    | cons c cs =>
      simp only [eatCI]
      by_cases hc : caseEq ph c = true
      · rw [if_pos hc, ih]
        constructor
        · rintro ⟨q, hcs, hq⟩
          refine ⟨c :: q, by simp [hcs], ?_⟩
          simp only [ciEqL, Bool.and_eq_true]
          exact ⟨by rw [caseEq_comm]; exact hc, hq⟩
        · rintro ⟨q, hl, hq⟩
          cases q with
          | nil => simp [ciEqL] at hq
          | cons a qs =>
            simp only [List.cons_append, List.cons.injEq] at hl
            simp only [ciEqL, Bool.and_eq_true] at hq
            exact ⟨qs, hl.2, hq.2⟩
      · rw [if_neg hc]
        constructor
        · intro h; cases h
        · rintro ⟨q, hl, hq⟩
          cases q with
          | nil => simp [ciEqL] at hq
          | cons a qs =>
            simp only [List.cons_append, List.cons.injEq] at hl
            simp only [ciEqL, Bool.and_eq_true] at hq
            exact absurd (by rw [caseEq_comm, hl.1]; exact hq.1) hc

theorem takeWhile_slug {slug rest : List Char} (h : ∀ a ∈ slug, a ≠ '/') :
    (slug ++ '/' :: rest).takeWhile (fun c => c != '/') = slug ∧
    (slug ++ '/' :: rest).dropWhile (fun c => c != '/') = '/' :: rest := by
  induction slug with
  | nil => simp
  | cons a xs ih =>
    have ha : a ≠ '/' := h a (by simp)
    obtain ⟨t1, t2⟩ := ih (fun x hx => h x (by simp [hx]))
    constructor
    · simpa [List.takeWhile_cons, bne_iff_ne, ha] using t1
    · simpa [List.dropWhile_cons, bne_iff_ne, ha] using t2

theorem slashThen_eq_some_iff {l r : List Char} :
    slashThen l = some r ↔ l = '/' :: r := by
  cases l with
  | nil => simp [slashThen]
  | cons c cs =>
    simp only [slashThen]
    by_cases hc : c = '/'
    · subst hc; simp
    · simp [hc]

theorem matchRestaurant_eq_some_iff {city url canon : List Char} :
    matchRestaurant city url = some canon ↔ SpecAdmitsL city url canon := by
  constructor
  · intro h
    unfold matchRestaurant at h
    split at h
    · cases h
    next r1 h1 =>
    split at h
    · cases h
    next r2 h2 =>
    split at h
    · cases h
    next r3 h3 =>
    split at h
    next hslug => cases h
    next hslug =>
    split at h
    · cases h
    next r5 h4 =>
    split at h
    · cases h
    next r6 h5 =>
    split at h
    next ht =>
      rw [Option.some.injEq] at h
      obtain ⟨p, hpu, hp⟩ := eatCI_eq_some_iff.mp h1
      obtain ⟨ct, hctr, hct⟩ := eatCI_eq_some_iff.mp h2
      obtain ⟨w, hwr, hw⟩ := eatCI_eq_some_iff.mp h5
      have hr2 : r2 = '/' :: r3 := slashThen_eq_some_iff.mp h3
      have hr4 : r3.dropWhile (fun x => x != '/') = '/' :: r5 :=
        slashThen_eq_some_iff.mp h4
      have hr3 : r3 = r3.takeWhile (fun x => x != '/') ++ '/' :: (w ++ r6) := by
        conv_lhs => rw [← @List.takeWhile_append_dropWhile _ (fun x => x != '/') r3]
        rw [hr4, hwr]
      have hns : ∀ a ∈ r3.takeWhile (fun x => x != '/'), a ≠ '/' := by
        intro a ha
        have hall := @List.all_takeWhile _ (fun x => x != '/') r3
        rw [List.all_eq_true] at hall
        simpa [bne_iff_ne] using hall a ha
      refine ⟨p, ct, r3.takeWhile (fun x => x != '/'), w, r6, ?_, hp, hct, hslug, hns, hw, ht, ?_⟩
      · rw [hpu, hctr, hr2, List.append_assoc]
        conv_lhs => rw [hr3]
      · rw [← h]
        have e1 := ciEqL_length hp
        have e2 := ciEqL_length hct
        have hurl2 : url = (p ++ ct ++ '/' :: r3.takeWhile (fun x => x != '/')) ++
            ('/' :: (w ++ r6)) := by
          rw [hpu, hctr, hr2]
          conv_lhs => rw [hr3]
          simp [List.append_assoc]
        have hlen : domainChars.length + city.length + 1 +
            (r3.takeWhile (fun x => x != '/')).length =
            (p ++ ct ++ '/' :: r3.takeWhile (fun x => x != '/')).length := by
          simp only [List.length_append, List.length_cons]
          omega
        rw [hurl2, hlen, List.take_left]
    next ht => cases h
  · rintro ⟨p, ct, slug, w, tl, hurl, hp, hct, hne, hns, hw, htl, hcanon⟩
    have h1 : eatCI domainChars url = some (ct ++ '/' :: (slug ++ '/' :: (w ++ tl))) :=
      eatCI_eq_some_iff.mpr ⟨p, by rw [hurl, List.append_assoc], hp⟩
    have h2 : eatCI city (ct ++ '/' :: (slug ++ '/' :: (w ++ tl))) =
        some ('/' :: (slug ++ '/' :: (w ++ tl))) :=
      eatCI_eq_some_iff.mpr ⟨ct, rfl, hct⟩
    have h3 : slashThen ('/' :: (slug ++ '/' :: (w ++ tl))) =
        some (slug ++ '/' :: (w ++ tl)) := slashThen_eq_some_iff.mpr rfl
    obtain ⟨htw, hdw⟩ := @takeWhile_slug slug (w ++ tl) hns
    have h4 : slashThen ((slug ++ '/' :: (w ++ tl)).dropWhile (fun x => x != '/')) =
        some (w ++ tl) := by rw [hdw]; exact slashThen_eq_some_iff.mpr rfl
    have h6 : eatCI orderChars (w ++ tl) = some tl :=
      eatCI_eq_some_iff.mpr ⟨w, rfl, hw⟩
    have e1 := ciEqL_length hp
    have e2 := ciEqL_length hct
    have hurl2 : url = (p ++ ct ++ '/' :: slug) ++ ('/' :: (w ++ tl)) := by
      rw [hurl]; simp [List.append_assoc]
    have hlen : domainChars.length + city.length + 1 + slug.length =
        (p ++ ct ++ '/' :: slug).length := by
      simp only [List.length_append, List.length_cons]
      omega
    simp only [matchRestaurant, h1, h2, h3, htw, h4, h6, if_neg hne, htl, if_true,
      Option.some.injEq, hcanon]
    rw [hurl2, hlen, List.take_left]

theorem mk_toList (c : String) : String.mk c.toList = c := by
  cases c
  rfl

theorem mem_setInsert {l : List String} {x y : String} :
    y ∈ setInsert l x ↔ y = x ∨ y ∈ l := by
  unfold setInsert
  by_cases hx : x ∈ l
  · rw [if_pos hx]
    constructor
    · exact Or.inr
    · rintro (rfl | hy)
      · exact hx
      · exact hy
  · rw [if_neg hx]
    simp [or_comm]

theorem setInsert_nodup {l : List String} {x : String} (h : l.Nodup) :
    (setInsert l x).Nodup := by
  unfold setInsert
  by_cases hx : x ∈ l
  · rwa [if_pos hx]
  · rw [if_neg hx]
    rw [List.nodup_append]
    refine ⟨h, List.nodup_singleton x, ?_⟩
    intro a ha hb
    rw [List.mem_singleton] at hb
    subst hb
    exact hx ha

theorem filter_fold_mem (s : ZomatoScraper) (urls : List String) (acc : List String)
    (c : String) :
    c ∈ urls.foldl (fun acc u =>
      match matchRestaurant s.city.toList u.toList with
      | some cc => setInsert acc (String.mk cc)
      | none => acc) acc ↔
    c ∈ acc ∨ ∃ u ∈ urls, matchRestaurant s.city.toList u.toList = some c.toList := by
  induction urls generalizing acc with
  | nil => simp
  | cons u us ih =>
    simp only [List.foldl_cons, List.mem_cons, exists_eq_or_imp]
    cases hm : matchRestaurant s.city.toList u.toList with
    | none =>
      rw [ih]
      constructor
      · rintro (hc | hrest)
        · exact Or.inl hc
        · exact Or.inr (Or.inr hrest)
      · rintro (hc | hmc | hrest)
        · exact Or.inl hc
        · cases hmc
        · exact Or.inr hrest
    | some cc =>
      rw [ih]
      constructor
      · rintro (hc | hrest)
        · rcases mem_setInsert.mp hc with rfl | hc2
          · exact Or.inr (Or.inl rfl)
          · exact Or.inl hc2
        · exact Or.inr (Or.inr hrest)
      · rintro (hc | hmc | hrest)
        · exact Or.inl (mem_setInsert.mpr (Or.inr hc))
        · refine Or.inl (mem_setInsert.mpr (Or.inl ?_))
          injection hmc with h2
          rw [h2]
          exact (mk_toList c).symm
        · exact Or.inr hrest

theorem filter_fold_nodup (s : ZomatoScraper) (urls : List String) (acc : List String)
    (h : acc.Nodup) :
    (urls.foldl (fun acc u =>
      match matchRestaurant s.city.toList u.toList with
      | some cc => setInsert acc (String.mk cc)
      | none => acc) acc).Nodup := by
  induction urls generalizing acc with
  | nil => simpa
  | cons u us ih =>
    simp only [List.foldl_cons]
    cases hm : matchRestaurant s.city.toList u.toList with
    | none => exact ih acc h
    | some cc => exact ih _ (setInsert_nodup h)

/-- Membership in the filter output: a canonical URL is produced exactly
when some input URL matches the regex with that group-1 capture. -/
theorem filter_restaurant_mem_iff (s : ZomatoScraper) (urls : List String) (c : String) :
    c ∈ s.filter_restaurant_urls urls ↔
    ∃ u ∈ urls, SpecAdmitsL s.city.toList u.toList c.toList := by
  unfold ZomatoScraper.filter_restaurant_urls
  rw [filter_fold_mem]
  simp only [List.not_mem_nil, false_or]
  constructor
  · rintro ⟨u, hu, hm⟩
    exact ⟨u, hu, matchRestaurant_eq_some_iff.mp hm⟩
  · rintro ⟨u, hu, hm⟩
    exact ⟨u, hu, matchRestaurant_eq_some_iff.mpr hm⟩

/-- The filter's output never contains duplicates (it is a set). -/
theorem filter_restaurant_nodup (s : ZomatoScraper) (urls : List String) :
    (s.filter_restaurant_urls urls).Nodup :=
  filter_fold_nodup s urls [] List.nodup_nil

theorem range'_append_one (s m n : Nat) :
    List.range' s m ++ List.range' (s + m) n = List.range' s (m + n) := by
  have h := List.range'_append s m n 1
  rw [Nat.one_mul] at h
  rw [h, Nat.add_comm n m]

theorem assignIds_map_url (n : Nat) (us : List String) :
    (assignIds n us).map CapturedURL.url = us := by
  induction us generalizing n with
  | nil => rfl
  | cons u t ih => simp [assignIds, ih]

theorem assignIds_map_id (n : Nat) (us : List String) :
    (assignIds n us).map CapturedURL.id = List.range' n us.length := by
  induction us generalizing n with
  | nil => rfl
  | cons u t ih => simp [assignIds, ih, List.range'_succ]

theorem assignIds_length (n : Nat) (us : List String) :
    (assignIds n us).length = us.length := by
  induction us generalizing n with
  | nil => rfl
  | cons u t ih => simp [assignIds, ih]

theorem appendRun_valid (pre : List CapturedURL) (batches : List (List CapturedURL)) :
    appendRun (.valid pre) batches = .valid (pre ++ batches.flatten) := by
  induction batches generalizing pre with
  | nil => simp [appendRun]
  | cons b bs ih =>
    simp only [appendRun, List.foldl_cons, List.flatten_cons] at *
    rw [show append_to_json_file (StoreFile.valid pre) true b =
        StoreFile.valid (pre ++ b) from rfl, ih, List.append_assoc]

theorem monitorTick_eq (s : ZomatoScraper) (st : MonitorState)
    (input : List String × Bool) :
    monitorTick s st input =
      { next_id := st.next_id +
          ((s.filter_restaurant_urls input.1).filter
            (fun u => decide (u ∉ st.captured))).length
        captured := st.captured ++
          (s.filter_restaurant_urls input.1).filter (fun u => decide (u ∉ st.captured))
        file :=
          if (s.filter_restaurant_urls input.1).filter
              (fun u => decide (u ∉ st.captured)) = [] then st.file
          else append_to_json_file st.file input.2
            (assignIds st.next_id
              ((s.filter_restaurant_urls input.1).filter
                (fun u => decide (u ∉ st.captured))))
        records := st.records ++
          assignIds st.next_id
            ((s.filter_restaurant_urls input.1).filter
              (fun u => decide (u ∉ st.captured))) } := by
  simp only [monitorTick]
  by_cases h : (s.filter_restaurant_urls input.1).filter
      (fun u => decide (u ∉ st.captured)) = []
  · rw [if_pos h, if_pos h, h]
    simp [assignIds]
  · rw [if_neg h, if_neg h]
    simp only [assignIds_length]

theorem fold_captured_records (s : ZomatoScraper) (ticks : List (List String × Bool)) :
    ∀ st : MonitorState, st.captured = st.records.map CapturedURL.url →
    (ticks.foldl (monitorTick s) st).captured =
      (ticks.foldl (monitorTick s) st).records.map CapturedURL.url := by
  induction ticks with
  | nil => exact fun st h => h
  | cons t ts ih =>
    intro st h
    rw [List.foldl_cons]
    apply ih
    rw [monitorTick_eq]
    simp [List.map_append, assignIds_map_url, h]

theorem fold_ids (s : ZomatoScraper) (ticks : List (List String × Bool)) :
    ∀ (st : MonitorState) (n : Nat),
    st.records.map CapturedURL.id = List.range' n st.records.length →
    st.next_id = n + st.records.length →
    (ticks.foldl (monitorTick s) st).records.map CapturedURL.id =
      List.range' n (ticks.foldl (monitorTick s) st).records.length ∧
    (ticks.foldl (monitorTick s) st).next_id =
      n + (ticks.foldl (monitorTick s) st).records.length := by
  induction ticks with
  | nil => exact fun st n h1 h2 => ⟨h1, h2⟩
  | cons t ts ih =>
    intro st n h1 h2
    rw [List.foldl_cons]
    apply ih
    · rw [monitorTick_eq]
      simp only [List.map_append, assignIds_map_id, List.length_append,
        assignIds_length, h1, h2]
      exact range'_append_one n st.records.length _
    · rw [monitorTick_eq]
      simp only [List.length_append, assignIds_length, h2]
      omega

theorem fold_captured_nodup (s : ZomatoScraper) (ticks : List (List String × Bool)) :
    ∀ st : MonitorState, st.captured.Nodup →
    (ticks.foldl (monitorTick s) st).captured.Nodup := by
  induction ticks with
  | nil => exact fun st h => h
  | cons t ts ih =>
    intro st h
    rw [List.foldl_cons]
    apply ih
    rw [monitorTick_eq]
    simp only []
    rw [List.nodup_append]
    refine ⟨h, (filter_restaurant_nodup s t.1).filter _, ?_⟩
    intro a ha hb
    rw [List.mem_filter] at hb
    exact (of_decide_eq_true hb.2) ha

theorem fold_file (s : ZomatoScraper) (ticks : List (List String × Bool))
    (file0 : StoreFile) :
    ∀ st : MonitorState, (∀ t ∈ ticks, t.2 = true) →
    loadStore st.file = loadStore file0 ++ st.records →
    loadStore ((ticks.foldl (monitorTick s) st)).file =
      loadStore file0 ++ (ticks.foldl (monitorTick s) st).records := by
  induction ticks with
  | nil => exact fun st _ h => h
  | cons t ts ih =>
    intro st hw h
    rw [List.foldl_cons]
    apply ih _ (fun x hx => hw x (List.mem_cons_of_mem t hx))
    rw [monitorTick_eq]
    simp only []
    by_cases hnu : (s.filter_restaurant_urls t.1).filter
        (fun u => decide (u ∉ st.captured)) = []
    · rw [if_pos hnu, hnu]
      simp [h, assignIds]
    · rw [if_neg hnu]
      have hwt : t.2 = true := hw t (List.mem_cons_self t ts)
      rw [hwt]
      have hload : ∀ items : List CapturedURL,
          loadStore (append_to_json_file st.file true items) =
          loadStore st.file ++ items := fun items => rfl
      rw [hload, h, List.append_assoc]

theorem fold_mem_captured (s : ZomatoScraper) (url : String)
    (ticks : List (List String × Bool)) :
    ∀ st : MonitorState,
    (url ∈ st.captured ∨ ∃ t ∈ ticks, url ∈ s.filter_restaurant_urls t.1) →
    url ∈ (ticks.foldl (monitorTick s) st).captured := by
  induction ticks with
  | nil =>
    rintro st (h | ⟨t, ht, _⟩)
    · exact h
    · cases ht
  | cons t ts ih =>
    rintro st (h | ⟨t', ht', hf⟩)
    · apply ih
      left
      rw [monitorTick_eq]
      exact List.mem_append_left _ h
    · rcases List.mem_cons.mp ht' with rfl | hts
      · apply ih
        left
        rw [monitorTick_eq]
        by_cases hc : url ∈ st.captured
        · exact List.mem_append_left _ hc
        · refine List.mem_append_right _ ?_
          rw [List.mem_filter]
          exact ⟨hf, decide_eq_true hc⟩
      · exact ih (monitorTick s st t) (Or.inr ⟨t', hts, hf⟩)

theorem ciEqL_refl (l : List Char) : ciEqL l l = true := by
  induction l with
  | nil => rfl
  | cons a xs ih => simp [ciEqL, caseEq, ih]

theorem takeWhile_all_eq {l : List Char} (h : ∀ a ∈ l, a ≠ '/') :
    l.takeWhile (fun x => x != '/') = l ∧ l.dropWhile (fun x => x != '/') = [] := by
  induction l with
  | nil => simp
  | cons a xs ih =>
    have ha : a ≠ '/' := h a (by simp)
    obtain ⟨t1, t2⟩ := ih (fun x hx => h x (by simp [hx]))
    constructor
    · simp [List.takeWhile_cons, bne_iff_ne, ha, t1]
    · simp [List.dropWhile_cons, bne_iff_ne, ha, t2]

/-- Claim C1 (counterexample): the specification's pattern, with its
optional suffix group, admits the bare canonical URL
`https://www.zomato.com/bangalore/abc` (with itself as group 1) and the
suffixed `https://www.zomato.com/bangalore/abc/menu`, yet
`filter_restaurant_urls` admits neither, so the claimed matching rule is
not the one the code implements. -/
theorem claim_C1_filter_spec_pattern_counterexample :
    SpecClaimedAdmits "bangalore".toList
      "https://www.zomato.com/bangalore/abc".toList
      "https://www.zomato.com/bangalore/abc".toList ∧
    SpecClaimedAdmits "bangalore".toList
      "https://www.zomato.com/bangalore/abc/menu".toList
      "https://www.zomato.com/bangalore/abc".toList ∧
    (ZomatoScraper.init "https://www.zomato.com" "bangalore"
      "captured_urls.json").filter_restaurant_urls
      ["https://www.zomato.com/bangalore/abc",
       "https://www.zomato.com/bangalore/abc/menu"] = [] := by
  refine ⟨⟨domainChars, "bangalore".toList, "abc".toList, [],
      by decide, by decide, by decide, by decide, by decide, Or.inl rfl, by decide⟩,
    ⟨domainChars, "bangalore".toList, "abc".toList, "/menu".toList,
      by decide, by decide, by decide, by decide, by decide,
      Or.inr ⟨"menu".toList, rfl, by decide⟩, by decide⟩,
    by decide⟩

/-- Claim C1 (amended): the filter's output contains a canonical URL `c`
exactly when some input URL matches
`^(https://www.zomato.com/<city>/<slug>)(/order<rest>)$`
case-insensitively — the suffix group is mandatory and must begin with
`/order` — with group 1 equal to `c` (the URL truncated right after the
slug, original casing kept). -/
theorem claim_C1_filter_membership (s : ZomatoScraper) (urls : List String)
    (c : String) :
    c ∈ s.filter_restaurant_urls urls ↔
    ∃ u ∈ urls, SpecAdmitsL s.city.toList u.toList c.toList :=
  filter_restaurant_mem_iff s urls c

/-- Claim C2 (counterexample): filtering the singleton list holding the
canonical URL `https://www.zomato.com/bangalore/abc` returns the empty
set, not the singleton containing that URL. -/
theorem claim_C2_idempotence_counterexample :
    (ZomatoScraper.init "https://www.zomato.com" "bangalore"
      "captured_urls.json").filter_restaurant_urls
      ["https://www.zomato.com/bangalore/abc"] = [] ∧
    ([] : List String) ≠ ["https://www.zomato.com/bangalore/abc"] := by
  decide

/-- Claim C2 (amended): a URL already in canonical form is never
re-admitted — filtering its singleton yields the empty set — while the
same URL with a `/order` suffix appended is admitted and canonicalized
back to it. -/
theorem claim_C2_canonical_not_readmitted (s : ZomatoScraper) (u : String)
    (p ct slug : List Char)
    (hu : u.toList = p ++ (ct ++ '/' :: slug))
    (hp : ciEqL p domainChars = true) (hct : ciEqL ct s.city.toList = true)
    (hne : slug ≠ []) (hns : ∀ a ∈ slug, a ≠ '/') :
    s.filter_restaurant_urls [u] = [] ∧
    s.filter_restaurant_urls [String.mk (u.toList ++ '/' :: orderChars)] = [u] := by
  constructor
  · have h1 : eatCI domainChars u.toList = some (ct ++ '/' :: slug) :=
      eatCI_eq_some_iff.mpr ⟨p, hu, hp⟩
    have h2 : eatCI s.city.toList (ct ++ '/' :: slug) = some ('/' :: slug) :=
      eatCI_eq_some_iff.mpr ⟨ct, rfl, hct⟩
    have h3 : slashThen ('/' :: slug) = some slug := slashThen_eq_some_iff.mpr rfl
    obtain ⟨t1, t2⟩ := takeWhile_all_eq hns
    have h4 : slashThen (slug.dropWhile (fun x => x != '/')) = none := by
      rw [t2]; rfl
    have hm : matchRestaurant s.city.toList u.toList = none := by
      simp only [matchRestaurant, h1, h2, h3, t1, if_neg hne, h4]
    simp only [ZomatoScraper.filter_restaurant_urls, List.foldl_cons,
      List.foldl_nil, hm]
  · have hadm : SpecAdmitsL s.city.toList (u.toList ++ '/' :: orderChars) u.toList :=
      ⟨p, ct, slug, orderChars, [], by rw [hu]; simp [List.append_assoc],
        hp, hct, hne, hns, ciEqL_refl _, rfl, by rw [hu, List.append_assoc]⟩
    have hm : matchRestaurant s.city.toList (u.toList ++ '/' :: orderChars) =
        some u.toList := matchRestaurant_eq_some_iff.mpr hadm
    have hm' : matchRestaurant s.city.toList
        (String.mk (u.toList ++ '/' :: orderChars)).toList = some u.toList := hm
    simp only [ZomatoScraper.filter_restaurant_urls, List.foldl_cons,
      List.foldl_nil, hm']
    rw [mk_toList]
    simp [setInsert]

/-- Claim C2 witness: the amended statement evaluated on the canonical
URL `https://www.zomato.com/bangalore/abc` of a default-constructed
scraper. -/
theorem claim_C2_canonical_not_readmitted_witness :
    (ZomatoScraper.init "https://www.zomato.com" "bangalore"
      "captured_urls.json").filter_restaurant_urls
      ["https://www.zomato.com/bangalore/abc"] = [] ∧
    (ZomatoScraper.init "https://www.zomato.com" "bangalore"
      "captured_urls.json").filter_restaurant_urls
      [String.mk ("https://www.zomato.com/bangalore/abc".toList ++ '/' :: orderChars)] =
      ["https://www.zomato.com/bangalore/abc"] :=
  claim_C2_canonical_not_readmitted
    (ZomatoScraper.init "https://www.zomato.com" "bangalore" "captured_urls.json")
    "https://www.zomato.com/bangalore/abc"
    domainChars "bangalore".toList "abc".toList
    (by decide) (by decide) (by decide) (by decide) (by decide)

/-- Claim C3 (counterexample): with a failed write on the first tick
(batch `{1, .../a}`) and a successful write on the second (batch
`{2, .../b}`), the next successful write produces a file holding only
the second batch — the first batch is not merged in and is lost, even
though the seen-set and the record history still hold it. -/
theorem claim_C3_lost_batch_counterexample :
    monitorRun (ZomatoScraper.init "https://www.zomato.com" "bangalore"
        "captured_urls.json") StoreFile.absent
      [(["https://www.zomato.com/bangalore/a/order"], false),
       (["https://www.zomato.com/bangalore/b/order"], true)] =
      ⟨3, ["https://www.zomato.com/bangalore/a", "https://www.zomato.com/bangalore/b"],
       StoreFile.valid [⟨2, "https://www.zomato.com/bangalore/b"⟩],
       [⟨1, "https://www.zomato.com/bangalore/a"⟩,
        ⟨2, "https://www.zomato.com/bangalore/b"⟩]⟩ ∧
    "https://www.zomato.com/bangalore/a" ∉
      (loadStore (StoreFile.valid [⟨2, "https://www.zomato.com/bangalore/b"⟩])).map
        CapturedURL.url := by
  decide

/-- Claim C3 (amended): when a tick's disk write fails, the exception is
swallowed and the in-memory seen-set is still updated with the batch's
URLs, but the batch is not requeued: the file is left unchanged, and any
later successful append writes only the file's current content plus that
call's own items, so the failed batch's records are never persisted
while the run continues (dedup even prevents re-capturing the URLs). -/
theorem claim_C3_write_failure_behaviour (s : ZomatoScraper) (st : MonitorState)
    (links : List String) :
    (monitorTick s st (links, false)).file = st.file ∧
    (monitorTick s st (links, false)).captured =
      st.captured ++
        (s.filter_restaurant_urls links).filter (fun u => decide (u ∉ st.captured)) ∧
    (monitorTick s st (links, false)).records =
      st.records ++ assignIds st.next_id
        ((s.filter_restaurant_urls links).filter (fun u => decide (u ∉ st.captured))) ∧
    ∀ items : List CapturedURL,
      append_to_json_file st.file true items =
        StoreFile.valid (loadStore st.file ++ items) := by
  refine ⟨?_, ?_, ?_, fun items => rfl⟩
  · rw [monitorTick_eq]
    by_cases hnu : (s.filter_restaurant_urls links).filter
        (fun u => decide (u ∉ st.captured)) = []
    · exact if_pos hnu
    · rw [if_neg hnu]
      rfl
  · rw [monitorTick_eq]
  · rw [monitorTick_eq]

/-- Claim C4: a canonical URL observed in the filtered set of any tick of
a run gets exactly one record in the run's record history (the strict
set difference against the seen-set blocks every later duplicate), and
with all writes succeeding the persisted store holds exactly the prior
content followed by that history. -/
theorem claim_C4_dedup (s : ZomatoScraper) (file0 : StoreFile)
    (ticks : List (List String × Bool)) (url : String)
    (hobs : ∃ t ∈ ticks, url ∈ s.filter_restaurant_urls t.1)
    (hw : ∀ t ∈ ticks, t.2 = true) :
    ((monitorRun s file0 ticks).records.map CapturedURL.url).count url = 1 ∧
    loadStore (monitorRun s file0 ticks).file =
      loadStore file0 ++ (monitorRun s file0 ticks).records := by
  have hcr := fold_captured_records s ticks ⟨s.next_id, [], file0, []⟩ rfl
  have hnd := fold_captured_nodup s ticks ⟨s.next_id, [], file0, []⟩ List.nodup_nil
  have hmem := fold_mem_captured s url ticks ⟨s.next_id, [], file0, []⟩ (Or.inr hobs)
  constructor
  · rw [monitorRun, ← hcr]
    exact List.count_eq_one_of_mem hnd hmem
  · exact fold_file s ticks file0 ⟨s.next_id, [], file0, []⟩ hw
      (List.append_nil (loadStore file0)).symm

/-- Claim C4 witness: the same canonical URL appears in the filtered sets
of two consecutive ticks and receives exactly one record. -/
theorem claim_C4_dedup_witness :
    ((monitorRun (ZomatoScraper.init "https://www.zomato.com" "bangalore"
        "captured_urls.json") StoreFile.absent
      [(["https://www.zomato.com/bangalore/a/order"], true),
       (["https://www.zomato.com/bangalore/a/order2"], true)]).records.map
        CapturedURL.url).count "https://www.zomato.com/bangalore/a" = 1 ∧
    loadStore (monitorRun (ZomatoScraper.init "https://www.zomato.com" "bangalore"
        "captured_urls.json") StoreFile.absent
      [(["https://www.zomato.com/bangalore/a/order"], true),
       (["https://www.zomato.com/bangalore/a/order2"], true)]).file =
      loadStore StoreFile.absent ++
        (monitorRun (ZomatoScraper.init "https://www.zomato.com" "bangalore"
          "captured_urls.json") StoreFile.absent
          [(["https://www.zomato.com/bangalore/a/order"], true),
           (["https://www.zomato.com/bangalore/a/order2"], true)]).records :=
  claim_C4_dedup
    (ZomatoScraper.init "https://www.zomato.com" "bangalore" "captured_urls.json")
    StoreFile.absent
    [(["https://www.zomato.com/bangalore/a/order"], true),
     (["https://www.zomato.com/bangalore/a/order2"], true)]
    "https://www.zomato.com/bangalore/a" (by decide) (by decide)

/-- Claim C5: across a run the ids assigned to the record history are
exactly 1, 2, 3, ... in assignment order — strictly increasing, no gaps,
no repeats — for a scraper built by the constructor. -/
theorem claim_C5_id_monotonicity (b c o : String) (file0 : StoreFile)
    (ticks : List (List String × Bool)) :
    (monitorRun (ZomatoScraper.init b c o) file0 ticks).records.map CapturedURL.id =
      List.range' 1
        (monitorRun (ZomatoScraper.init b c o) file0 ticks).records.length :=
  (fold_ids (ZomatoScraper.init b c o) ticks
    ⟨(ZomatoScraper.init b c o).next_id, [], file0, []⟩ 1 rfl rfl).1

/-- Claim C6: N successful appends of nonempty batches onto a valid store
leave exactly the prior records, in order, followed by the batches in
order; the final count is the prior count plus the sum of batch sizes. -/
theorem claim_C6_append_growth (pre : List CapturedURL)
    (batches : List (List CapturedURL)) (_hne : ∀ b ∈ batches, b ≠ []) :
    appendRun (StoreFile.valid pre) batches =
      StoreFile.valid (pre ++ batches.flatten) ∧
    (loadStore (appendRun (StoreFile.valid pre) batches)).length =
      pre.length + (batches.map List.length).sum := by
  refine ⟨appendRun_valid pre batches, ?_⟩
  rw [appendRun_valid]
  simp [loadStore, List.length_flatten]

/-- Claim C6 witness: two nonempty batches appended onto a one-record
store. -/
theorem claim_C6_append_growth_witness :
    appendRun (StoreFile.valid [⟨1, "a"⟩])
        ([[⟨2, "b"⟩], [⟨3, "c"⟩, ⟨4, "d"⟩]] : List (List CapturedURL)) =
      StoreFile.valid (([⟨1, "a"⟩] : List CapturedURL) ++
        ([[⟨2, "b"⟩], [⟨3, "c"⟩, ⟨4, "d"⟩]] : List (List CapturedURL)).flatten) ∧
    (loadStore (appendRun (StoreFile.valid [⟨1, "a"⟩])
        ([[⟨2, "b"⟩], [⟨3, "c"⟩, ⟨4, "d"⟩]] : List (List CapturedURL)))).length =
      ([⟨1, "a"⟩] : List CapturedURL).length +
        (([[⟨2, "b"⟩], [⟨3, "c"⟩, ⟨4, "d"⟩]] : List (List CapturedURL)).map
          List.length).sum :=
  claim_C6_append_growth [⟨1, "a"⟩] [[⟨2, "b"⟩], [⟨3, "c"⟩, ⟨4, "d"⟩]] (by decide)

/-- Claim C7: a corrupt store file is loaded as the empty list (the parse
error is caught, not raised), and the next append succeeds, producing a
valid file holding exactly the new batch. -/
theorem claim_C7_corrupt_resilience (new_items : List CapturedURL) :
    loadStore StoreFile.corrupt = [] ∧
    append_to_json_file StoreFile.corrupt true new_items =
      StoreFile.valid new_items :=
  ⟨rfl, rfl⟩

/-- Claim C8: a fresh run ignores the on-disk file when initializing its
state — the constructor sets `next_id = 1` and the monitor starts with
an empty seen-set — so whatever the prior file holds, the first record
captured in a new run carries id 1. -/
theorem claim_C8_fresh_run (b c o : String) (file0 : StoreFile)
    (ticks : List (List String × Bool)) (r : CapturedURL)
    (hh : (monitorRun (ZomatoScraper.init b c o) file0 ticks).records.head? =
      some r) :
    (ZomatoScraper.init b c o).next_id = 1 ∧ r.id = 1 := by
  refine ⟨rfl, ?_⟩
  have hids := (fold_ids (ZomatoScraper.init b c o) ticks
    ⟨(ZomatoScraper.init b c o).next_id, [], file0, []⟩ 1 rfl rfl).1
  cases hrec : (monitorRun (ZomatoScraper.init b c o) file0 ticks).records with
  | nil => rw [hrec] at hh; cases hh
  | cons r0 rest =>
    rw [hrec] at hh
    simp only [List.head?_cons, Option.some.injEq] at hh
    rw [monitorRun] at hrec
    rw [hrec] at hids
    simp only [List.map_cons, List.length_cons] at hids
    have hr : List.range' 1 (rest.length + 1) = 1 :: List.range' 2 rest.length := rfl
    rw [hr] at hids
    injection hids with hid _
    rw [← hh]
    exact hid

/-- Claim C8 witness: with a pre-existing file already holding a record
with id 7, a fresh run still assigns id 1 to its first capture. -/
theorem claim_C8_fresh_run_witness :
    (ZomatoScraper.init "https://www.zomato.com" "bangalore"
      "captured_urls.json").next_id = 1 ∧
    (⟨1, "https://www.zomato.com/bangalore/a"⟩ : CapturedURL).id = 1 :=
  claim_C8_fresh_run "https://www.zomato.com" "bangalore" "captured_urls.json"
    (StoreFile.valid [⟨7, "https://www.zomato.com/bangalore/old"⟩])
    [(["https://www.zomato.com/bangalore/a/order"], true)]
    ⟨1, "https://www.zomato.com/bangalore/a"⟩ (by decide)

/-- Claim C9: `ph_scraper.py` calls `scraper.extract_phone_number()` for
each URL of its list, but no such method exists on `ZomatoScraper`, so
the call raises `AttributeError` instead of returning a phone number;
the list is nonempty, so the very first URL already fails. -/
theorem claim_C9_extract_phone_number_missing :
    extract_phone_number_call =
      Except.error "AttributeError: extract_phone_number" ∧
    lookupMethod "extract_phone_number" = none ∧
    ph_url_list.head? = some "https://www.zomato.com/bangalore/1947-jp-nagar-bangalore" :=
  ⟨rfl, rfl, rfl⟩

/-- Claim C10: `base_url` has no effect on filtering — two scrapers
constructed with different `base_url` but the same city give identical
filter output on every input list — and every canonical URL the filter
admits starts with a case-variant of the fixed domain
`https://www.zomato.com/` followed by a case-variant of the city. -/
theorem claim_C10_base_url_irrelevant (b1 b2 city o1 o2 : String)
    (urls : List String) :
    (ZomatoScraper.init b1 city o1).filter_restaurant_urls urls =
      (ZomatoScraper.init b2 city o2).filter_restaurant_urls urls ∧
    ∀ c ∈ (ZomatoScraper.init b1 city o1).filter_restaurant_urls urls,
      ∃ p ct rest, c.toList = p ++ (ct ++ rest) ∧ ciEqL p domainChars = true ∧
        ciEqL ct (ZomatoScraper.init b1 city o1).city.toList = true := by
  constructor
  · rfl
  · intro c hc
    obtain ⟨u, _, hadm⟩ :=
      (filter_restaurant_mem_iff (ZomatoScraper.init b1 city o1) urls c).mp hc
    obtain ⟨p, ct, slug, w, tl, _, hp, hct, _, _, _, _, hcanon⟩ := hadm
    exact ⟨p, ct, '/' :: slug, by rw [hcanon, List.append_assoc], hp, hct⟩

/-- Claim C10 witness: a file-scheme `base_url` and the default one give
the same singleton output, whose element lies under the fixed domain. -/
theorem claim_C10_base_url_irrelevant_witness :
    (ZomatoScraper.init "file://local" "bangalore" "a.json").filter_restaurant_urls
        ["https://www.zomato.com/bangalore/x/order"] =
      (ZomatoScraper.init "https://www.zomato.com" "bangalore"
        "b.json").filter_restaurant_urls
        ["https://www.zomato.com/bangalore/x/order"] ∧
    ∃ p ct rest,
      ("https://www.zomato.com/bangalore/x" : String).toList = p ++ (ct ++ rest) ∧
      ciEqL p domainChars = true ∧
      ciEqL ct (ZomatoScraper.init "file://local" "bangalore"
        "a.json").city.toList = true :=
  ⟨(claim_C10_base_url_irrelevant "file://local" "https://www.zomato.com"
      "bangalore" "a.json" "b.json" ["https://www.zomato.com/bangalore/x/order"]).1,
   (claim_C10_base_url_irrelevant "file://local" "https://www.zomato.com"
      "bangalore" "a.json" "b.json" ["https://www.zomato.com/bangalore/x/order"]).2
      "https://www.zomato.com/bangalore/x" (by decide)⟩

